import Mathlib

/-!
Shallow embedding of `src/app.py` ("MindfulTube", a personal YouTube-playlist
triage CLI) and proofs about it.

Python strings are modelled as `List Char` (`Str`); Python `None` / raised
exceptions are modelled with `Option`; Python dicts keyed by insertion order
are modelled as association lists.  Percent-decoding in `parse_qs` and the
IPv6-bracket validation in `urlparse` are not modelled (no claim depends on
them); `datetime` parsing is abstracted by a timestamp function parameter
where the code calls `parse_youtube_datetime(...).timestamp()`.
-/

namespace MindfulTube

/-- Python strings, modelled as character lists. -/
abbrev Str := List Char

/-- Split a character list at the first occurrence of `c`
(Python `s.split(c, 1)`): returns the part before the first `c` and,
when `c` occurs, `some` of the part after it. -/
def breakAt (c : Char) : Str → Str × Option Str
  | [] => ([], none)
  | x :: xs =>
    if x = c then ([], some xs)
    else
      let r := breakAt c xs
      (x :: r.1, r.2)

/-- Take characters until the first one that belongs to `delims`
(the `_splitnetloc` helper of Python's `urlsplit`): returns the
consumed part and the rest (which starts with the delimiter, if any). -/
def takeUntilDelims (delims : List Char) : Str → Str × Str
  | [] => ([], [])
  | x :: xs =>
    if x ∈ delims then ([], x :: xs)
    else
      let r := takeUntilDelims delims xs
      (x :: r.1, r.2)

/-- Python `s.split(c)`: split on every occurrence of `c`;
the result is always non-empty. -/
def splitChar (c : Char) : Str → List Str
  | [] => [[]]
  | x :: xs =>
    match splitChar c xs with
    | [] => [[]]
    | y :: ys => if x = c then [] :: y :: ys else (x :: y) :: ys

/-- `startsWithChars pat s` is Python `s.startswith(pat)`. -/
def startsWithChars : Str → Str → Bool
  | [], _ => true
  | _ :: _, [] => false
  | p :: ps, x :: xs => p == x && startsWithChars ps xs

/-- `strContains needle hay` is Python `needle in hay` (substring test). -/
def strContains (needle : Str) : Str → Bool
  | [] => startsWithChars needle []
  | c :: cs => startsWithChars needle (c :: cs) || strContains needle cs

/-- Characters allowed in a URL scheme after the first
(Python `urllib.parse.scheme_chars`). -/
def isSchemeChar (c : Char) : Bool :=
  c.isAlphanum || c = '+' || c = '-' || c = '.'

/-- Result of `urllib.parse.urlparse` restricted to the components
`app.py` uses (`netloc`, `path`, `query`; the `params` split is irrelevant
because no path here contains `;`). -/
structure ParsedUrl where
  scheme : Str
  netloc : Str
  path : Str
  query : Str
  fragment : Str
deriving DecidableEq

/-- First step of Python's `urlsplit`: split a leading `scheme:` when the
candidate scheme is non-empty, starts with a letter and uses only scheme
characters (`i = url.find(':'); if i > 0 and ...`); the scheme is
lowercased. -/
def splitScheme (url : Str) : Str × Str :=
  match breakAt ':' url with
  | (before, some after) =>
    if before ≠ [] ∧ (before.headD ' ').isAlpha ∧ before.all isSchemeChar then
      (before.map Char.toLower, after)
    else ([], url)
  | (_, none) => ([], url)

/-- Second step of Python's `urlsplit`: when the rest starts with `//`,
the netloc extends to the first of `/?#` (`_splitnetloc`). -/
def splitNetloc (rest : Str) : Str × Str :=
  match rest with
  | '/' :: '/' :: r => takeUntilDelims ['/', '?', '#'] r
  | _ => ([], rest)

/-- Model of `urllib.parse.urlparse` (via `urlsplit`):
split a leading `scheme:` when the candidate scheme is well-formed, then a
`//netloc` delimited by `/?#`, then the fragment at the first `#`, then the
query at the first `?`. -/
def urlparse (url : Str) : ParsedUrl :=
  let s := splitScheme url
  let n := splitNetloc s.2
  let f := breakAt '#' n.2
  let q := breakAt '?' f.1
  { scheme := s.1, netloc := n.1, path := q.1,
    query := (q.2).getD [], fragment := (f.2).getD [] }

/-- Model of `urllib.parse.parse_qs` restricted to what `app.py` reads:
the ordered list of `name=value` pairs with a non-empty value
(`keep_blank_values=False` drops blank values, and a field without `=`
is skipped); percent-decoding is not modelled. -/
def qsPairs (query : Str) : List (Str × Str) :=
  (splitChar '&' query).filterMap fun field =>
    match breakAt '=' field with
    | (_, none) => none
    | (name, some value) => if value = [] then none else some (name, value)

/-- `parse_qs(query).get(name, [None])[0]`: the first value listed for
`name`, if any. -/
def getParam (name : Str) (query : Str) : Option Str :=
  ((qsPairs query).find? fun p => p.1 == name).map (·.2)

/-- `name in parse_qs(query)`. -/
def hasParam (name : Str) (query : Str) : Bool :=
  ((qsPairs query).find? fun p => p.1 == name).isSome

/-- `normalize_youtube_url` from `app.py`.  `none` models a raised
exception (the `IndexError` from `parsed_url.path.split('/')[1]` when the
`youtu.be` path is empty); `some s` models returning the string `s`. -/
def normalize_youtube_url (url : Str) : Option Str :=
  let p := urlparse url
  let vid : Option (Option Str) :=
    if p.netloc = "www.youtube.com".data ∨ p.netloc = "youtube.com".data then
      if p.path = "/watch".data then some (getParam "v".data p.query)
      else if startsWithChars "/embed/".data p.path then
        -- `parsed_url.path.split('/')[2]`; the index always exists here
        match (splitChar '/' p.path).get? 2 with
        | some v => some (some v)
        | none => none
      else some none
    else if p.netloc = "youtu.be".data then
      -- `parsed_url.path.split('/')[1]` raises IndexError when path = ""
      match (splitChar '/' p.path).get? 1 with
      | some v => some (some v)
      | none => none
    else some none
  match vid with
  | none => none
  | some none => some url
  | some (some v) =>
    -- `if video_id:` — the empty string is falsy, like None
    if v = [] then some url else some ("https://www.youtube.com/watch?v=".data ++ v)

/-- `get_playlist_id` from `app.py`: an ID is returned only when
`"youtube.com" in parsed_url.netloc` and `"list" in parse_qs(query)`;
both the `youtu.be` branch and the final fallthrough return `None`. -/
def get_playlist_id (url : Str) : Option Str :=
  let p := urlparse url
  if strContains "youtube.com".data p.netloc ∧ hasParam "list".data p.query then
    getParam "list".data p.query
  else none

/-- Characters YouTube video identifiers are made of. -/
def isIdChar (c : Char) : Bool :=
  c.isAlphanum || c = '-' || c = '_'

/-! ### Splitting lemmas -/

theorem breakAt_of_not_mem {c : Char} {l : Str} (h : c ∉ l) :
    breakAt c l = (l, none) := by
  induction l with
  | nil => rfl
  | cons x xs ih =>
    have hx : ¬x = c := fun hxc => h (hxc ▸ List.mem_cons_self x xs)
    simp only [breakAt, if_neg hx, ih (fun hm => h (List.mem_cons_of_mem x hm))]

theorem breakAt_append_cons {c : Char} {l₁ l₂ : Str} (h : c ∉ l₁) :
    breakAt c (l₁ ++ c :: l₂) = (l₁, some l₂) := by
  induction l₁ with
  | nil => simp [breakAt]
  | cons x xs ih =>
    have hx : ¬x = c := fun hxc => h (hxc ▸ List.mem_cons_self x xs)
    simp only [List.cons_append, breakAt, if_neg hx, List.append_eq,
      ih (fun hm => h (List.mem_cons_of_mem x hm))]

theorem takeUntilDelims_of_not_mem {delims : List Char} {l : Str}
    (h : ∀ x ∈ l, x ∉ delims) : takeUntilDelims delims l = (l, []) := by
  induction l with
  | nil => rfl
  | cons x xs ih =>
    simp only [takeUntilDelims, if_neg (h x (List.mem_cons_self x xs)),
      ih (fun y hy => h y (List.mem_cons_of_mem x hy))]

theorem takeUntilDelims_append_cons {delims : List Char} {l₁ l₂ : Str} {d : Char}
    (h : ∀ x ∈ l₁, x ∉ delims) (hd : d ∈ delims) :
    takeUntilDelims delims (l₁ ++ d :: l₂) = (l₁, d :: l₂) := by
  induction l₁ with
  | nil => simp [takeUntilDelims, hd]
  | cons x xs ih =>
    simp only [List.cons_append, takeUntilDelims,
      if_neg (h x (List.mem_cons_self x xs)), List.append_eq,
      ih (fun y hy => h y (List.mem_cons_of_mem x hy))]

theorem splitChar_ne_nil (c : Char) (l : Str) : splitChar c l ≠ [] := by
  cases l with
  | nil => simp [splitChar]
  | cons x xs =>
    simp only [splitChar]
    cases splitChar c xs with
    | nil => simp
    | cons y ys => by_cases hx : x = c <;> simp [hx]

theorem splitChar_of_not_mem {c : Char} {l : Str} (h : c ∉ l) :
    splitChar c l = [l] := by
  induction l with
  | nil => rfl
  | cons x xs ih =>
    have hx : ¬x = c := fun hxc => h (hxc ▸ List.mem_cons_self x xs)
    simp only [splitChar, ih (fun hm => h (List.mem_cons_of_mem x hm)), if_neg hx]

theorem splitChar_cons_self (c : Char) (l : Str) :
    splitChar c (c :: l) = [] :: splitChar c l := by
  simp only [splitChar]
  cases h : splitChar c l with
  | nil => exact absurd h (splitChar_ne_nil c l)
  | cons y ys => simp

theorem splitChar_append_cons {c : Char} {l₁ l₂ : Str} (h : c ∉ l₁) :
    splitChar c (l₁ ++ c :: l₂) = l₁ :: splitChar c l₂ := by
  induction l₁ with
  | nil => simpa using splitChar_cons_self c l₂
  | cons x xs ih =>
    have hx : ¬x = c := fun hxc => h (hxc ▸ List.mem_cons_self x xs)
    have ih' := ih (fun hm => h (List.mem_cons_of_mem x hm))
    simp only [List.cons_append, splitChar, List.append_eq, ih', if_neg hx]

theorem startsWithChars_self_append (p s : Str) :
    startsWithChars p (p ++ s) = true := by
  induction p with
  | nil => rfl
  | cons x xs ih => simp [startsWithChars, ih]

theorem not_mem_of_all_idChar {id : Str} (h : ∀ c ∈ id, isIdChar c = true)
    {d : Char} (hd : isIdChar d = false) : d ∉ id := fun hm => by
  rw [h d hm] at hd; cases hd

theorem not_mem_append_of_idChar {pre id : Str} {d : Char}
    (hpre : d ∉ pre) (h : ∀ c ∈ id, isIdChar c = true) (hd : isIdChar d = false) :
    d ∉ pre ++ id := fun hm => by
  rcases List.mem_append.1 hm with h' | h'
  · exact hpre h'
  · exact not_mem_of_all_idChar h hd h'

/-! ### `urlparse` on the three recognized video-URL shapes -/

theorem urlparse_watch_form (id : Str) (h : ∀ c ∈ id, isIdChar c = true) :
    urlparse ("https://www.youtube.com/watch?v=".data ++ id) =
      ⟨"https".data, "www.youtube.com".data, "/watch".data, "v=".data ++ id, []⟩ := by
  have hs : splitScheme ("https://www.youtube.com/watch?v=".data ++ id)
      = ("https".data, "//www.youtube.com/watch?v=".data ++ id) := rfl
  have hn : splitNetloc ("//www.youtube.com/watch?v=".data ++ id)
      = ("www.youtube.com".data, "/watch?v=".data ++ id) := rfl
  have hf : breakAt '#' ("/watch?v=".data ++ id) = ("/watch?v=".data ++ id, none) :=
    breakAt_of_not_mem (not_mem_append_of_idChar (by decide) h (by decide))
  have hq : breakAt '?' ("/watch?v=".data ++ id)
      = ("/watch".data, some ("v=".data ++ id)) := rfl
  simp only [urlparse, hs, hn, hf, hq, Option.getD_some, Option.getD_none]

theorem urlparse_embed_form (id : Str) (h : ∀ c ∈ id, isIdChar c = true) :
    urlparse ("https://www.youtube.com/embed/".data ++ id) =
      ⟨"https".data, "www.youtube.com".data, "/embed/".data ++ id, [], []⟩ := by
  have hs : splitScheme ("https://www.youtube.com/embed/".data ++ id)
      = ("https".data, "//www.youtube.com/embed/".data ++ id) := rfl
  have hn : splitNetloc ("//www.youtube.com/embed/".data ++ id)
      = ("www.youtube.com".data, "/embed/".data ++ id) := rfl
  have hf : breakAt '#' ("/embed/".data ++ id) = ("/embed/".data ++ id, none) :=
    breakAt_of_not_mem (not_mem_append_of_idChar (by decide) h (by decide))
  have hq : breakAt '?' ("/embed/".data ++ id) = ("/embed/".data ++ id, none) :=
    breakAt_of_not_mem (not_mem_append_of_idChar (by decide) h (by decide))
  simp only [urlparse, hs, hn, hf, hq, Option.getD_some, Option.getD_none]

theorem urlparse_short_form (id : Str) (h : ∀ c ∈ id, isIdChar c = true) :
    urlparse ("https://youtu.be/".data ++ id) =
      ⟨"https".data, "youtu.be".data, "/".data ++ id, [], []⟩ := by
  have hs : splitScheme ("https://youtu.be/".data ++ id)
      = ("https".data, "//youtu.be/".data ++ id) := rfl
  have hn : splitNetloc ("//youtu.be/".data ++ id)
      = ("youtu.be".data, "/".data ++ id) := rfl
  have hf : breakAt '#' ("/".data ++ id) = ("/".data ++ id, none) :=
    breakAt_of_not_mem (not_mem_append_of_idChar (by decide) h (by decide))
  have hq : breakAt '?' ("/".data ++ id) = ("/".data ++ id, none) :=
    breakAt_of_not_mem (not_mem_append_of_idChar (by decide) h (by decide))
  simp only [urlparse, hs, hn, hf, hq, Option.getD_some, Option.getD_none]

theorem getParam_v_append (id : Str) (hne : id ≠ [])
    (h : ∀ c ∈ id, isIdChar c = true) :
    getParam "v".data ("v=".data ++ id) = some id := by
  have hsp : splitChar '&' ("v=".data ++ id) = ["v=".data ++ id] :=
    splitChar_of_not_mem (not_mem_append_of_idChar (by decide) h (by decide))
  have hb : breakAt '=' ("v=".data ++ id) = ("v".data, some id) := rfl
  simp only [getParam, qsPairs, hsp, List.filterMap, hb, if_neg hne]
  simp [List.find?]

/-- C6: for every video identifier `ID` (non-empty, over the identifier
alphabet), normalizing the watch-page form, the embed form, and the
`youtu.be` short-link form all yield the canonical string
`https://www.youtube.com/watch?v=ID`; in particular normalizing an
already-canonical URL (the first conjunct, whose input is itself the
canonical string) is a fixed point. -/
theorem C6_normalize_canonical_forms (id : Str) (hne : id ≠ [])
    (h : ∀ c ∈ id, isIdChar c = true) :
    normalize_youtube_url ("https://www.youtube.com/watch?v=".data ++ id)
        = some ("https://www.youtube.com/watch?v=".data ++ id)
    ∧ normalize_youtube_url ("https://www.youtube.com/embed/".data ++ id)
        = some ("https://www.youtube.com/watch?v=".data ++ id)
    ∧ normalize_youtube_url ("https://youtu.be/".data ++ id)
        = some ("https://www.youtube.com/watch?v=".data ++ id) := by
  refine ⟨?_, ?_, ?_⟩
  · rw [normalize_youtube_url, urlparse_watch_form id h]
    simp only [getParam_v_append id hne h]
    simp [hne]
  · rw [normalize_youtube_url, urlparse_embed_form id h]
    have hpath : ¬("/embed/".data ++ id = "/watch".data) := by
      intro hEq
      rw [show ("/embed/".data ++ id) = '/' :: 'e' :: ("mbed/".data ++ id) from rfl,
        show "/watch".data = '/' :: 'w' :: "atch".data from rfl] at hEq
      injection hEq with _ hEq2
      injection hEq2 with h2 _
      exact absurd h2 (by decide)
    have hsp : splitChar '/' ("/embed/".data ++ id) = [[], "embed".data, id] := by
      rw [show ("/embed/".data ++ id) = '/' :: ("embed".data ++ '/' :: id) from rfl,
        splitChar_cons_self, splitChar_append_cons (by decide),
        splitChar_of_not_mem (not_mem_of_all_idChar h (by decide))]
    simp only [if_neg hpath, startsWithChars_self_append, if_pos trivial, hsp,
      List.get?]
    simp [hne]
  · rw [normalize_youtube_url, urlparse_short_form id h]
    have hsp : splitChar '/' ("/".data ++ id) = [[], id] := by
      rw [show ("/".data ++ id) = '/' :: id from rfl, splitChar_cons_self,
        splitChar_of_not_mem (not_mem_of_all_idChar h (by decide))]
    simp only [hsp, List.get?]
    simp [hne]

/-- C6 witness: the three equalities at the concrete identifier
`dQw4w9WgXcQ`. -/
theorem C6_normalize_canonical_forms_witness :
    normalize_youtube_url "https://www.youtube.com/watch?v=dQw4w9WgXcQ".data
        = some "https://www.youtube.com/watch?v=dQw4w9WgXcQ".data
    ∧ normalize_youtube_url "https://www.youtube.com/embed/dQw4w9WgXcQ".data
        = some "https://www.youtube.com/watch?v=dQw4w9WgXcQ".data
    ∧ normalize_youtube_url "https://youtu.be/dQw4w9WgXcQ".data
        = some "https://www.youtube.com/watch?v=dQw4w9WgXcQ".data :=
  C6_normalize_canonical_forms "dQw4w9WgXcQ".data (by decide) (by decide)

/-- C7: the claim says `normalize_youtube_url` never raises and returns any
unrecognized input unchanged.  The code contradicts this (and its own
fallback comment "Return original if not a recognized YouTube video URL"):
on input `https://youtu.be` the `youtu.be` branch evaluates
`parsed_url.path.split('/')[1]` with `path = ''`, i.e. `[''][1]`, raising
`IndexError` (modelled by `none`) instead of returning the input. -/
theorem C7_normalize_raises_on_bare_short_host :
    normalize_youtube_url "https://youtu.be".data = none := by decide

theorem getParam_eq_none_of_hasParam_false {n q : Str}
    (h : hasParam n q = false) : getParam n q = none := by
  unfold hasParam at h
  unfold getParam
  cases hf : (qsPairs q).find? (fun p => p.1 == n) with
  | none => simp
  | some p => rw [hf] at h; simp at h

/-- C10: `get_playlist_id` returns an ID exactly when the netloc contains
`youtube.com` as a substring and the query has a `list` entry, in which
case it returns the first `list` value; any URL whose netloc does not
contain `youtube.com` — including `youtu.be` short links and non-YouTube
hosts — yields no playlist ID even when a `list` parameter is present. -/
theorem C10_playlist_id_extraction (url : Str) :
    (strContains "youtube.com".data (urlparse url).netloc = false →
      get_playlist_id url = none)
    ∧ (strContains "youtube.com".data (urlparse url).netloc = true →
      get_playlist_id url = getParam "list".data (urlparse url).query)
    ∧ get_playlist_id "https://youtu.be/abc?list=PL123".data = none
    ∧ get_playlist_id "https://example.com/path?list=PL123".data = none
    ∧ get_playlist_id "https://www.youtube.com/playlist?list=PLa&list=PLb".data
        = some "PLa".data := by
  refine ⟨?_, ?_, by decide, by decide, by decide⟩
  · intro hc
    simp [get_playlist_id, hc]
  · intro hc
    by_cases hp : hasParam "list".data (urlparse url).query = true
    · simp [get_playlist_id, hc, hp]
    · have hnone := getParam_eq_none_of_hasParam_false
        (n := "list".data) (q := (urlparse url).query) (by simpa using hp)
      simp [get_playlist_id, hc, hp, hnone]

/-- C10 witness: on a `music.youtube.com` URL the netloc contains
`youtube.com`, so the first `list` value is returned. -/
theorem C10_playlist_id_extraction_witness :
    get_playlist_id "https://music.youtube.com/watch?v=a&list=PLx".data
      = some "PLx".data :=
  (C10_playlist_id_extraction
      "https://music.youtube.com/watch?v=a&list=PLx".data).2.1 (by decide)

/-! ### Data model (§3 of the JSON document `mindfultube_data.json`) -/

/-- A stored video dict.  Keys that may be absent (`summary`,
`usefulness_rating`, `actionable_points`) are `Option`s. -/
structure VideoRecord where
  url : Str
  publishedAt : Str
  title : Str
  description : Str
  fed : Bool
  summary : Option Str
  usefulness_rating : Option Str
  actionable_points : Option (List Str)
deriving DecidableEq

/-- A tracked playlist dict. -/
structure PlaylistRecord where
  url : Str
  videos : List VideoRecord
  added_date : Str
deriving DecidableEq

/-- The root JSON document.  `playlists` is a Python dict keyed by playlist
id, modelled as an association list in insertion order (keys unique).
`last_fed_date` stores `date.isoformat()` strings, so the
parse-and-compare in `get_next_video` coincides with string equality. -/
structure Document where
  playlists : List (Str × PlaylistRecord)
  last_fed_date : Option Str
deriving DecidableEq

/-- The metadata of one video as fetched by `get_playlist_items`
(url already normalized, title/description already cleaned). -/
structure RemoteVideo where
  url : Str
  publishedAt : Str
  title : Str
  description : Str
deriving DecidableEq

/-- The dict `get_playlist_items` builds for each fetched video
(lines 115–121): metadata plus `"fed": False` and no analysis keys. -/
def toLocalRecord (r : RemoteVideo) : VideoRecord :=
  { url := r.url, publishedAt := r.publishedAt, title := r.title,
    description := r.description, fed := false,
    summary := none, usefulness_rating := none, actionable_points := none }

/-! ### Playlist sync (`sync_playlist`) -/

/-- The dict comprehension `{v["url"]: v for v in local_playlist["videos"]}`:
on duplicate urls the last entry wins, hence lookup in the reversed list. -/
def lookupLocal (videos : List VideoRecord) (u : Str) : Option VideoRecord :=
  videos.reverse.find? (fun v => v.url == u)

/-- One iteration of the merge loop of `sync_playlist`: update
`publishedAt`/`title`/`description` in place on the existing record if the
url is known locally, else take the fetched record as is. -/
def mergeOne (locals : List VideoRecord) (r : RemoteVideo) : VideoRecord :=
  match lookupLocal locals r.url with
  | some ex =>
    { ex with
      publishedAt := r.publishedAt
      title := r.title
      description := r.description }
  | none => toLocalRecord r

/-- The merge loop of `sync_playlist` over the whole fetched list
(`updated_videos_list`). -/
def mergeVideos (locals : List VideoRecord) (remote : List RemoteVideo) :
    List VideoRecord :=
  remote.map (mergeOne locals)

/-- `sync_playlist` at document level (the fetch is a parameter): when the
playlist id is tracked, its `videos` list is replaced by the merge result;
an untracked id aborts without mutation. -/
def sync_playlist (pid : Str) (remote : List RemoteVideo) (d : Document) :
    Document :=
  if ((d.playlists.find? fun p => p.1 == pid)).isSome then
    { d with playlists := d.playlists.map fun p =>
        if p.1 = pid then
          (p.1, { p.2 with videos := mergeVideos p.2.videos remote })
        else p }
  else d

/-- `add_playlist` at document level: reject an already-tracked id and an
empty fetch without mutation, else append the new playlist record. -/
def add_playlist (pid purl : Str) (remote : List RemoteVideo) (added : Str)
    (d : Document) : Document :=
  if ((d.playlists.find? fun p => p.1 == pid)).isSome then d
  else if remote = [] then d
  else { d with playlists := d.playlists ++
          [(pid, { url := purl, videos := remote.map toLocalRecord,
                   added_date := added })] }

/-! ### Find-first-and-update operations (`watch`, `skip`, `analyze`,
`auto_analyze`): the nested `for playlist / for video / break` pattern. -/

/-- Apply `upd` to the first video whose url is `u`; report whether one was
found. -/
def updateVideosFirst (u : Str) (upd : VideoRecord → VideoRecord) :
    List VideoRecord → List VideoRecord × Bool
  | [] => ([], false)
  | v :: vs =>
    if v.url = u then (upd v :: vs, true)
    else
      let r := updateVideosFirst u upd vs
      (v :: r.1, r.2)

/-- Lift a first-match video update over the playlists dict: the first
playlist containing a match is updated and iteration stops. -/
def updateDocFirst (f : List VideoRecord → List VideoRecord × Bool) :
    List (Str × PlaylistRecord) → List (Str × PlaylistRecord) × Bool
  | [] => ([], false)
  | (k, pl) :: rest =>
    let r := f pl.videos
    if r.2 then ((k, { pl with videos := r.1 }) :: rest, true)
    else
      let r2 := updateDocFirst f rest
      ((k, pl) :: r2.1, r2.2)

/-- Python `s.strip()`. -/
def stripChars (s : Str) : Str :=
  ((s.dropWhile Char.isWhitespace).reverse.dropWhile Char.isWhitespace).reverse

/-- `[ap.strip() for ap in actionable_points_str.split(';') if ap.strip()]`. -/
def parsePoints (s : Str) : List Str :=
  (splitChar ';' s).filterMap fun ap =>
    let t := stripChars ap
    if t = [] then none else some t

/-- `analyze_video`: normalize the input url (`none` = the normalizer
raised), locate the first matching record and overwrite its three analysis
fields; if no record matches, the document is not saved and an error is
reported (`false`). -/
def analyze_video (u summary rating ptsStr : Str) (d : Document) :
    Option (Document × Bool) :=
  (normalize_youtube_url u).map fun u' =>
    let r := updateDocFirst
      (updateVideosFirst u' fun v =>
        { v with
          summary := some summary
          usefulness_rating := some rating
          actionable_points := some (parsePoints ptsStr) }) d.playlists
    if r.2 then ({ d with playlists := r.1 }, true) else (d, false)

/-- `mark_video_watched`: set `fed = True` on the first record matching the
normalized url; not-found leaves the document unsaved. -/
def mark_video_watched (u : Str) (d : Document) : Option (Document × Bool) :=
  (normalize_youtube_url u).map fun u' =>
    let r := updateDocFirst
      (updateVideosFirst u' fun v => { v with fed := true }) d.playlists
    if r.2 then ({ d with playlists := r.1 }, true) else (d, false)

/-- `skip_video`: identical body to `mark_video_watched` (the source
duplicates the logic). -/
def skip_video (u : Str) (d : Document) : Option (Document × Bool) :=
  (normalize_youtube_url u).map fun u' =>
    let r := updateDocFirst
      (updateVideosFirst u' fun v => { v with fed := true }) d.playlists
    if r.2 then ({ d with playlists := r.1 }, true) else (d, false)

/-- The JSON object parsed from the LLM response; each key may be missing. -/
structure LlmAnalysis where
  summary : Option Str
  usefulness_rating : Option Str
  actionable_points : Option (List Str)
deriving DecidableEq

/-- `video["url"] == video_url` found anywhere in the playlists dict. -/
def hasVideo (pls : List (Str × PlaylistRecord)) (u : Str) : Bool :=
  pls.any fun p => p.2.videos.any fun v => v.url == u

/-- `auto_analyze_video_with_llm`: the transcript fetch and LLM call are
external; `llm` is `some` of the parsed JSON when the response parsed, and
`none` when `json.loads` failed.  Not-found, a normalized url without a
`v` parameter, and a parse failure all leave the document unsaved. -/
def auto_analyze_video_with_llm (u : Str) (llm : Option LlmAnalysis)
    (d : Document) : Option (Document × Bool) :=
  (normalize_youtube_url u).map fun u' =>
    if hasVideo d.playlists u' then
      if (getParam "v".data (urlparse u').query).isSome then
        match llm with
        | none => (d, false)
        | some a =>
          let r := updateDocFirst
            (updateVideosFirst u' fun v =>
              { v with
                summary := some (a.summary.getD [])
                usefulness_rating := some (a.usefulness_rating.getD "unknown".data)
                actionable_points := some (a.actionable_points.getD []) })
            d.playlists
          ({ d with playlists := r.1 }, true)
      else (d, false)
    else (d, false)

/-! ### Daily feed selector (`get_next_video`) -/

/-- `DAILY_VIDEO_LIMIT = 2`. -/
def DAILY_VIDEO_LIMIT : Nat := 2

/-- `USEFULNESS_ORDER` (lower index = higher priority). -/
def USEFULNESS_ORDER : List (Str × Nat) :=
  [("highly_useful".data, 0), ("useful".data, 1), ("review_needed".data, 2),
   ("fluff".data, 3), ("outdated".data, 4), ("unknown".data, 5)]

/-- The primary sort key
`USEFULNESS_ORDER.get(x.get("usefulness_rating", "unknown"), len(USEFULNESS_ORDER))`:
a missing rating counts as `unknown`, a rating outside the enumeration gets
rank `len(USEFULNESS_ORDER) = 6`. -/
def usefulnessKey (v : VideoRecord) : Nat :=
  (USEFULNESS_ORDER.lookup (v.usefulness_rating.getD "unknown".data)).getD
    USEFULNESS_ORDER.length

/-- Comparison on the sort key tuple
`(usefulness rank, -publishedAt timestamp)`; `ts` abstracts
`parse_youtube_datetime(...).timestamp()`. -/
def feedLe (ts : Str → Int) (a b : VideoRecord) : Bool :=
  decide (usefulnessKey a < usefulnessKey b) ||
    (decide (usefulnessKey a = usefulnessKey b) &&
      decide (-(ts a.publishedAt) ≤ -(ts b.publishedAt)))

/-- The `all_unfed_videos.sort(key=...)` step (a stable sort by the key
tuple). -/
def sortUnfed (ts : Str → Int) (l : List VideoRecord) : List VideoRecord :=
  l.mergeSort (feedLe ts)

/-- Candidate collection: every video with `fed == false`, in playlist
iteration order. -/
def allUnfed (pls : List (Str × PlaylistRecord)) : List VideoRecord :=
  pls.flatMap fun p => p.2.videos.filter fun v => v.fed = false

/-- The inner scan of the feeding loop over one playlist's videos: mark the
first video with this url and `fed == false` (`if video["url"] ==
video_to_feed["url"] and not video["fed"]`). -/
def feedVideosOne (u : Str) : List VideoRecord → List VideoRecord × Bool
  | [] => ([], false)
  | v :: vs =>
    if v.url = u ∧ v.fed = false then ({ v with fed := true } :: vs, true)
    else
      let r := feedVideosOne u vs
      (v :: r.1, r.2)

/-- One iteration of the feeding loop's inner scan: mark the first video
with this url and `fed == false`, scanning playlists in order. -/
def feedDocOne (u : Str) (pls : List (Str × PlaylistRecord)) :
    List (Str × PlaylistRecord) × Bool :=
  updateDocFirst (feedVideosOne u) pls

/-- The `for video_to_feed in all_unfed_videos` loop with its
`fed_count_today >= DAILY_VIDEO_LIMIT` break. -/
def feedLoop : List VideoRecord → List (Str × PlaylistRecord) → Nat →
    List (Str × PlaylistRecord) × Nat
  | [], pls, n => (pls, n)
  | v :: vs, pls, n =>
    if DAILY_VIDEO_LIMIT ≤ n then (pls, n)
    else
      let r := feedDocOne v.url pls
      feedLoop vs r.1 (if r.2 then n + 1 else n)

/-- The gate check `if data["last_fed_date"]:` (truthiness: `None` and the
empty string are falsy) followed by the parsed-date comparison with today. -/
def gateClosed (last : Option Str) (today : Str) : Bool :=
  match last with
  | some s => !s.isEmpty && s == today
  | none => false

/-- `get_next_video`: gate check, candidate collection, empty-case early
return, sort, capped feeding loop, then unconditionally stamp
`last_fed_date = today` and persist. -/
def get_next_video (ts : Str → Int) (today : Str) (d : Document) : Document :=
  if gateClosed d.last_fed_date today then d
  else
    let cands := allUnfed d.playlists
    if cands = [] then d
    else
      let r := feedLoop (sortUnfed ts cands) d.playlists 0
      { playlists := r.1, last_fed_date := some today }

/-! ### C1: the feed ordering -/

theorem feedLe_trans (ts : Str → Int) (a b c : VideoRecord)
    (hab : feedLe ts a b) (hbc : feedLe ts b c) : feedLe ts a c := by
  simp only [feedLe, Bool.or_eq_true, Bool.and_eq_true, decide_eq_true_eq]
    at hab hbc ⊢
  omega

theorem feedLe_total (ts : Str → Int) (a b : VideoRecord) :
    feedLe ts a b || feedLe ts b a := by
  simp only [feedLe, Bool.or_eq_true, Bool.and_eq_true, decide_eq_true_eq]
  omega

theorem usefulnessKey_eq_rating (v : VideoRecord) (s : Str)
    (h : v.usefulness_rating = some s) :
    usefulnessKey v = (USEFULNESS_ORDER.lookup s).getD 6 := by
  simp [usefulnessKey, h, USEFULNESS_ORDER]

theorem lookup_eq_none_of_keys {l : List (Str × Nat)} {a : Str}
    (h : ∀ p ∈ l, p.1 ≠ a) : l.lookup a = none := by
  induction l with
  | nil => rfl
  | cons p ps ih =>
    obtain ⟨k, b⟩ := p
    have hp : (a == k) = false := beq_eq_false_iff_ne.2 (Ne.symm (h (k, b) (.head _)))
    simp only [List.lookup, hp]
    exact ih fun q hq => h q (.tail _ hq)

/-- C1: the candidate sort produces a permutation of the candidates ordered
by usefulness rank ascending (`highly_useful=0 < useful=1 < review_needed=2
< fluff=3 < outdated=4 < unknown=5`, a missing rating ranked as `unknown`,
a rating outside the enumeration ranked `6 = len(USEFULNESS_ORDER)`, after
`unknown`), with ties broken by publish timestamp descending
(newest first). -/
theorem C1_feed_sort_order (ts : Str → Int) (l : List VideoRecord) :
    (sortUnfed ts l).Perm l
    ∧ (sortUnfed ts l).Pairwise (fun a b =>
        usefulnessKey a < usefulnessKey b ∨
          (usefulnessKey a = usefulnessKey b ∧
            ts b.publishedAt ≤ ts a.publishedAt))
    ∧ (∀ v : VideoRecord,
        (v.usefulness_rating = some "highly_useful".data → usefulnessKey v = 0)
        ∧ (v.usefulness_rating = some "useful".data → usefulnessKey v = 1)
        ∧ (v.usefulness_rating = some "review_needed".data → usefulnessKey v = 2)
        ∧ (v.usefulness_rating = some "fluff".data → usefulnessKey v = 3)
        ∧ (v.usefulness_rating = some "outdated".data → usefulnessKey v = 4)
        ∧ (v.usefulness_rating = some "unknown".data → usefulnessKey v = 5)
        ∧ (v.usefulness_rating = none → usefulnessKey v = 5)
        ∧ (∀ s, v.usefulness_rating = some s →
            s ∉ USEFULNESS_ORDER.map Prod.fst →
            usefulnessKey v = USEFULNESS_ORDER.length)) := by
  refine ⟨List.mergeSort_perm l (feedLe ts), ?_, ?_⟩
  · have hs := @List.sorted_mergeSort VideoRecord (feedLe ts)
      (fun a b c => feedLe_trans ts a b c) (fun a b => feedLe_total ts a b) l
    refine hs.imp fun {a b} h => ?_
    simp only [feedLe, Bool.or_eq_true, Bool.and_eq_true, decide_eq_true_eq] at h
    omega
  · intro v
    refine ⟨?_, ?_, ?_, ?_, ?_, ?_, ?_, ?_⟩
    · intro h; rw [usefulnessKey_eq_rating v _ h]; decide
    · intro h; rw [usefulnessKey_eq_rating v _ h]; decide
    · intro h; rw [usefulnessKey_eq_rating v _ h]; decide
    · intro h; rw [usefulnessKey_eq_rating v _ h]; decide
    · intro h; rw [usefulnessKey_eq_rating v _ h]; decide
    · intro h; rw [usefulnessKey_eq_rating v _ h]; decide
    · intro h; simp only [usefulnessKey, h, Option.getD_none]; decide
    · intro s h hs
      rw [usefulnessKey_eq_rating v s h,
        lookup_eq_none_of_keys fun p hp hps => hs (List.mem_map.2 ⟨p, hp, hps⟩)]
      rfl

/-- C1 witness: instances of the rank facts at concrete records — a typo
rating ranks 6 (after `unknown`), `highly_useful` ranks 0, a record
without a rating ranks 5. -/
theorem C1_feed_sort_order_witness :
    usefulnessKey ⟨[], [], [], [], false, none, some "typo".data, none⟩ = 6
    ∧ usefulnessKey
        ⟨[], [], [], [], false, none, some "highly_useful".data, none⟩ = 0
    ∧ usefulnessKey ⟨[], [], [], [], false, none, none, none⟩ = 5 :=
  ⟨((C1_feed_sort_order (fun _ => 0) []).2.2
      ⟨[], [], [], [], false, none, some "typo".data, none⟩).2.2.2.2.2.2.2
      "typo".data rfl (by decide),
   ((C1_feed_sort_order (fun _ => 0) []).2.2
      ⟨[], [], [], [], false, none, some "highly_useful".data, none⟩).1 rfl,
   ((C1_feed_sort_order (fun _ => 0) []).2.2
      ⟨[], [], [], [], false, none, none, none⟩).2.2.2.2.2.2.1 rfl⟩

/-! ### C4, C5: the sync merge -/

theorem lookupLocal_spec {videos : List VideoRecord} {u : Str}
    {ex : VideoRecord} (h : lookupLocal videos u = some ex) :
    ex.url = u ∧ ex ∈ videos := by
  unfold lookupLocal at h
  have h1 := List.find?_some h
  have h2 := List.mem_of_find?_eq_some h
  exact ⟨eq_of_beq h1, by simpa using h2⟩

theorem mergeOne_url (locals : List VideoRecord) (r : RemoteVideo) :
    (mergeOne locals r).url = r.url := by
  unfold mergeOne
  cases hex : lookupLocal locals r.url with
  | some ex => simpa using (lookupLocal_spec hex).1
  | none => rfl

/-- C4: during a sync merge, a fetched video whose url already exists
locally yields the existing record with only `publishedAt`, `title` and
`description` replaced; `fed`, `summary`, `usefulness_rating` and
`actionable_points` are exactly those of the existing record. -/
theorem C4_sync_merge_updates_in_place (locals : List VideoRecord)
    (remote : List RemoteVideo) (i : Nat) (hi : i < remote.length)
    (ex : VideoRecord)
    (hex : lookupLocal locals (remote[i].url) = some ex) :
    (mergeVideos locals remote)[i]? = some
        { ex with
          publishedAt := remote[i].publishedAt
          title := remote[i].title
          description := remote[i].description }
    ∧ ∀ w, (mergeVideos locals remote)[i]? = some w →
        w.fed = ex.fed ∧ w.summary = ex.summary
        ∧ w.usefulness_rating = ex.usefulness_rating
        ∧ w.actionable_points = ex.actionable_points
        ∧ w.publishedAt = remote[i].publishedAt
        ∧ w.title = remote[i].title
        ∧ w.description = remote[i].description := by
  have hmain : (mergeVideos locals remote)[i]? = some
      { ex with
        publishedAt := remote[i].publishedAt
        title := remote[i].title
        description := remote[i].description } := by
    simp [mergeVideos, mergeOne, List.getElem?_map, List.getElem?_eq_getElem hi,
      hex]
  refine ⟨hmain, fun w hw => ?_⟩
  rw [hmain] at hw
  cases hw
  exact ⟨rfl, rfl, rfl, rfl, rfl, rfl, rfl⟩

/-- C4 witness: merging one already-tracked video (fed, analyzed) with
fresh metadata keeps the analysis fields and takes the new metadata. -/
theorem C4_sync_merge_updates_in_place_witness :
    (mergeVideos
        [⟨"u".data, "p0".data, "t0".data, "d0".data, true,
          some "s".data, some "useful".data, some ["a".data]⟩]
        [⟨"u".data, "p1".data, "t1".data, "d1".data⟩])[0]? = some
      ⟨"u".data, "p1".data, "t1".data, "d1".data, true,
        some "s".data, some "useful".data, some ["a".data]⟩ :=
  (C4_sync_merge_updates_in_place
      [⟨"u".data, "p0".data, "t0".data, "d0".data, true,
        some "s".data, some "useful".data, some ["a".data]⟩]
      [⟨"u".data, "p1".data, "t1".data, "d1".data⟩]
      0 (by decide)
      ⟨"u".data, "p0".data, "t0".data, "d0".data, true,
        some "s".data, some "useful".data, some ["a".data]⟩
      (by decide)).1

/-- C5: after a sync merge the playlist's videos are exactly the fetched
videos, in order: the merged list has one entry per fetched video with the
same url; a fetched url unknown locally is inserted as the fetched record
with `fed = false` and no analysis fields; every merged entry's url comes
from the fetch, and a local video whose url disappeared from the fetch is
dropped. -/
theorem C5_sync_replaces_with_remote (locals : List VideoRecord)
    (remote : List RemoteVideo) :
    (mergeVideos locals remote).length = remote.length
    ∧ (∀ i, (hi : i < remote.length) →
        ((mergeVideos locals remote)[i]?.map VideoRecord.url)
            = some (remote[i].url)
        ∧ (lookupLocal locals (remote[i].url) = none →
            (mergeVideos locals remote)[i]? = some (toLocalRecord remote[i])))
    ∧ (∀ r : RemoteVideo, (toLocalRecord r).fed = false
        ∧ (toLocalRecord r).summary = none
        ∧ (toLocalRecord r).usefulness_rating = none
        ∧ (toLocalRecord r).actionable_points = none)
    ∧ (∀ w ∈ mergeVideos locals remote, ∃ r ∈ remote, w.url = r.url)
    ∧ (∀ v ∈ locals, (∀ r ∈ remote, r.url ≠ v.url) →
        v ∉ mergeVideos locals remote) := by
  refine ⟨by simp [mergeVideos], fun i hi => ?_, fun r => ⟨rfl, rfl, rfl, rfl⟩,
    fun w hw => ?_, fun v hv habs hmem => ?_⟩
  · constructor
    · simp only [mergeVideos, List.getElem?_map, List.getElem?_eq_getElem hi,
        Option.map_some]
      exact congrArg some (mergeOne_url locals _)
    · intro hnone
      simp [mergeVideos, mergeOne, List.getElem?_map,
        List.getElem?_eq_getElem hi, hnone]
  · simp only [mergeVideos, List.mem_map] at hw
    obtain ⟨r, hr, hwr⟩ := hw
    exact ⟨r, hr, by rw [← hwr]; exact mergeOne_url locals r⟩
  · simp only [mergeVideos, List.mem_map] at hmem
    obtain ⟨r, hr, hvr⟩ := hmem
    have hvu : v.url = r.url := by rw [← hvr]; exact mergeOne_url locals r
    exact habs r hr hvu.symm

/-- C5 witness: one kept video, one inserted, one dropped. -/
theorem C5_sync_replaces_with_remote_witness :
    ((mergeVideos
        [⟨"a".data, "p".data, [], [], true, some "s".data, none, none⟩,
         ⟨"b".data, "p".data, [], [], false, none, none, none⟩]
        [⟨"a".data, "q".data, [], []⟩, ⟨"c".data, "q".data, [], []⟩]).length = 2)
    ∧ (mergeVideos
        [⟨"a".data, "p".data, [], [], true, some "s".data, none, none⟩,
         ⟨"b".data, "p".data, [], [], false, none, none, none⟩]
        [⟨"a".data, "q".data, [], []⟩, ⟨"c".data, "q".data, [], []⟩])[1]?
          = some (toLocalRecord ⟨"c".data, "q".data, [], []⟩)
    ∧ (⟨"b".data, "p".data, [], [], false, none, none, none⟩ : VideoRecord)
        ∉ mergeVideos
          [⟨"a".data, "p".data, [], [], true, some "s".data, none, none⟩,
           ⟨"b".data, "p".data, [], [], false, none, none, none⟩]
          [⟨"a".data, "q".data, [], []⟩, ⟨"c".data, "q".data, [], []⟩] := by
  refine ⟨(C5_sync_replaces_with_remote _ _).1, ?_, ?_⟩
  · exact ((C5_sync_replaces_with_remote _ _).2.1 1 (by decide)).2 (by decide)
  · exact (C5_sync_replaces_with_remote _ _).2.2.2.2
      ⟨"b".data, "p".data, [], [], false, none, none, none⟩ (by decide) (by decide)

/-! ### C9: not-found leaves the document unchanged -/

theorem updateVideosFirst_not_found {u : Str} {upd : VideoRecord → VideoRecord}
    {vs : List VideoRecord} (h : ∀ v ∈ vs, v.url ≠ u) :
    updateVideosFirst u upd vs = (vs, false) := by
  induction vs with
  | nil => rfl
  | cons v vs ih =>
    simp only [updateVideosFirst, if_neg (h v (.head _)),
      ih fun w hw => h w (.tail _ hw)]

theorem updateDocFirst_not_found {f : List VideoRecord → List VideoRecord × Bool}
    {pls : List (Str × PlaylistRecord)}
    (h : ∀ p ∈ pls, f p.2.videos = (p.2.videos, false)) :
    updateDocFirst f pls = (pls, false) := by
  induction pls with
  | nil => rfl
  | cons p rest ih =>
    obtain ⟨k, pl⟩ := p
    have hp := h (k, pl) (.head _)
    simp only [updateDocFirst, hp, if_neg (by simp : ¬(false = true)),
      ih fun q hq => h q (.tail _ hq)]

theorem hasVideo_eq_false {pls : List (Str × PlaylistRecord)} {u : Str}
    (h : ∀ p ∈ pls, ∀ v ∈ p.2.videos, v.url ≠ u) : hasVideo pls u = false := by
  rw [Bool.eq_false_iff]
  intro ht
  simp only [hasVideo, List.any_eq_true] at ht
  obtain ⟨p, hp, v, hv, hbeq⟩ := ht
  exact h p hp v hv (eq_of_beq hbeq)

/-- C9: when the normalized input url matches no stored video, both the
manual and the automated analysis entry points report the error (`false`)
and return the document unchanged — nothing is saved. -/
theorem C9_analyze_not_found_no_mutation (u summary rating ptsStr : Str)
    (llm : Option LlmAnalysis) (d : Document) (u' : Str)
    (hn : normalize_youtube_url u = some u')
    (habs : ∀ p ∈ d.playlists, ∀ v ∈ p.2.videos, v.url ≠ u') :
    analyze_video u summary rating ptsStr d = some (d, false)
    ∧ auto_analyze_video_with_llm u llm d = some (d, false) := by
  have hdoc : ∀ upd : VideoRecord → VideoRecord,
      updateDocFirst (updateVideosFirst u' upd) d.playlists
        = (d.playlists, false) :=
    fun upd => updateDocFirst_not_found fun p hp =>
      updateVideosFirst_not_found (habs p hp)
  constructor
  · unfold analyze_video
    rw [hn]
    simp only [Option.map_some']
    rw [hdoc]
    rfl
  · unfold auto_analyze_video_with_llm
    rw [hn]
    simp only [Option.map_some', hasVideo_eq_false habs]
    rfl

/-- C9 witness: analyzing a video that is tracked nowhere (url normalizes
to a canonical form absent from the document) reports failure and keeps
the document intact. -/
theorem C9_analyze_not_found_no_mutation_witness :
    analyze_video "https://youtu.be/bbb".data "s".data "useful".data "p".data
        ⟨[(("PL".data : Str),
           ⟨"purl".data,
            [⟨"https://www.youtube.com/watch?v=aaa".data, "p".data, [], [],
              false, none, none, none⟩], "ad".data⟩)], none⟩
      = some (⟨[(("PL".data : Str),
           ⟨"purl".data,
            [⟨"https://www.youtube.com/watch?v=aaa".data, "p".data, [], [],
              false, none, none, none⟩], "ad".data⟩)], none⟩, false)
    ∧ auto_analyze_video_with_llm "https://youtu.be/bbb".data none
        ⟨[(("PL".data : Str),
           ⟨"purl".data,
            [⟨"https://www.youtube.com/watch?v=aaa".data, "p".data, [], [],
              false, none, none, none⟩], "ad".data⟩)], none⟩
      = some (⟨[(("PL".data : Str),
           ⟨"purl".data,
            [⟨"https://www.youtube.com/watch?v=aaa".data, "p".data, [], [],
              false, none, none, none⟩], "ad".data⟩)], none⟩, false) :=
  C9_analyze_not_found_no_mutation "https://youtu.be/bbb".data "s".data
    "useful".data "p".data none _
    "https://www.youtube.com/watch?v=bbb".data (by decide) (by decide)

/-! ### C2, C3: the daily gate, the cap, and the `last_fed_date` stamp -/

/-- Number of videos currently marked `fed` in a playlist's video list. -/
def vidFedCount (vs : List VideoRecord) : Nat :=
  vs.countP fun v => v.fed

/-- Number of videos currently marked `fed` across the playlists dict. -/
def plsFedCount (pls : List (Str × PlaylistRecord)) : Nat :=
  (pls.map fun p => vidFedCount p.2.videos).sum

/-- Number of videos currently marked `fed` in the whole document. -/
def fedCount (d : Document) : Nat := plsFedCount d.playlists

theorem feedVideosOne_cons_pos {u : Str} {v : VideoRecord}
    {vs : List VideoRecord} (h : v.url = u ∧ v.fed = false) :
    feedVideosOne u (v :: vs) = ({ v with fed := true } :: vs, true) := by
  rw [feedVideosOne, if_pos h]

theorem feedVideosOne_cons_neg {u : Str} {v : VideoRecord}
    {vs : List VideoRecord} (h : ¬(v.url = u ∧ v.fed = false)) :
    feedVideosOne u (v :: vs)
      = (v :: (feedVideosOne u vs).1, (feedVideosOne u vs).2) := by
  rw [feedVideosOne, if_neg h]

theorem updateDocFirst_cons_pos {f : List VideoRecord → List VideoRecord × Bool}
    {k : Str} {pl : PlaylistRecord} {rest : List (Str × PlaylistRecord)}
    (h : (f pl.videos).2 = true) :
    updateDocFirst f ((k, pl) :: rest)
      = ((k, { pl with videos := (f pl.videos).1 }) :: rest, true) := by
  rw [updateDocFirst, if_pos h]

theorem updateDocFirst_cons_neg {f : List VideoRecord → List VideoRecord × Bool}
    {k : Str} {pl : PlaylistRecord} {rest : List (Str × PlaylistRecord)}
    (h : (f pl.videos).2 = false) :
    updateDocFirst f ((k, pl) :: rest)
      = ((k, pl) :: (updateDocFirst f rest).1, (updateDocFirst f rest).2) := by
  rw [updateDocFirst, if_neg (by simp [h])]

theorem feedVideosOne_spec (u : Str) (vs : List VideoRecord) :
    ((feedVideosOne u vs).2 = false → (feedVideosOne u vs).1 = vs)
    ∧ ((feedVideosOne u vs).2 = true →
        vidFedCount (feedVideosOne u vs).1 = vidFedCount vs + 1) := by
  induction vs with
  | nil => exact ⟨fun _ => rfl, fun h => by cases h⟩
  | cons v vs ih =>
    by_cases hv : v.url = u ∧ v.fed = false
    · rw [feedVideosOne_cons_pos hv]
      refine ⟨?_, ?_⟩
      · intro hfed
        simp at hfed
      · intro _
        simp [vidFedCount, List.countP_cons, hv.2]
    · rw [feedVideosOne_cons_neg hv]
      refine ⟨?_, ?_⟩
      · intro hfed
        rw [ih.1 hfed]
      · intro hfed
        have hc := ih.2 hfed
        simp only [vidFedCount, List.countP_cons] at hc ⊢
        omega

theorem feedDocOne_spec (u : Str) (pls : List (Str × PlaylistRecord)) :
    ((feedDocOne u pls).2 = false → (feedDocOne u pls).1 = pls)
    ∧ ((feedDocOne u pls).2 = true →
        plsFedCount (feedDocOne u pls).1 = plsFedCount pls + 1) := by
  induction pls with
  | nil => exact ⟨fun _ => rfl, fun h => by cases h⟩
  | cons p rest ih =>
    obtain ⟨k, pl⟩ := p
    simp only [feedDocOne] at ih ⊢
    cases hp : (feedVideosOne u pl.videos).2 with
    | true =>
      rw [updateDocFirst_cons_pos hp]
      refine ⟨?_, ?_⟩
      · intro hfed
        simp at hfed
      · intro _
        have hc := (feedVideosOne_spec u pl.videos).2 hp
        simp only [plsFedCount, List.map_cons, List.sum_cons, hc]
        omega
    | false =>
      rw [updateDocFirst_cons_neg hp]
      refine ⟨?_, ?_⟩
      · intro hfed
        rw [ih.1 hfed]
      · intro hfed
        have hc := ih.2 hfed
        simp only [plsFedCount, List.map_cons, List.sum_cons] at hc ⊢
        omega

theorem feedLoop_cons_stop {v : VideoRecord} {vs : List VideoRecord}
    {pls : List (Str × PlaylistRecord)} {n : Nat}
    (h : DAILY_VIDEO_LIMIT ≤ n) : feedLoop (v :: vs) pls n = (pls, n) := by
  rw [feedLoop, if_pos h]

theorem feedLoop_cons_step {v : VideoRecord} {vs : List VideoRecord}
    {pls : List (Str × PlaylistRecord)} {n : Nat}
    (h : ¬DAILY_VIDEO_LIMIT ≤ n) :
    feedLoop (v :: vs) pls n
      = feedLoop vs (feedDocOne v.url pls).1
          (if (feedDocOne v.url pls).2 then n + 1 else n) := by
  rw [feedLoop, if_neg h]

theorem feedLoop_spec (cands : List VideoRecord)
    (pls : List (Str × PlaylistRecord)) (n : Nat) :
    plsFedCount (feedLoop cands pls n).1 + n
        = plsFedCount pls + (feedLoop cands pls n).2
    ∧ n ≤ (feedLoop cands pls n).2
    ∧ (n ≤ DAILY_VIDEO_LIMIT → (feedLoop cands pls n).2 ≤ DAILY_VIDEO_LIMIT) := by
  induction cands generalizing pls n with
  | nil =>
    have hnil1 : (feedLoop [] pls n).1 = pls := rfl
    have hnil2 : (feedLoop [] pls n).2 = n := rfl
    rw [hnil1, hnil2]
    exact ⟨by omega, le_refl n, fun h => h⟩
  | cons v vs ih =>
    by_cases hn : DAILY_VIDEO_LIMIT ≤ n
    · rw [feedLoop_cons_stop hn]
      dsimp only
      exact ⟨by omega, le_refl n, fun h => h⟩
    · rw [feedLoop_cons_step hn]
      cases hone : (feedDocOne v.url pls).2 with
      | false =>
        have hkeep := (feedDocOne_spec v.url pls).1 hone
        rw [hkeep]
        exact ih pls n
      | true =>
        have hcond : (if (true : Bool) then n + 1 else n) = n + 1 := rfl
        have hcount := (feedDocOne_spec v.url pls).2 hone
        have hih := ih (feedDocOne v.url pls).1 (n + 1)
        rw [hcount] at hih
        rw [hcond]
        obtain ⟨h1, h2, h3⟩ := hih
        exact ⟨by omega, by omega, fun hle => h3 (by omega)⟩

theorem gateClosed_self {today : Str} (h : today ≠ []) :
    gateClosed (some today) today = true := by
  simp [gateClosed, h]

/-- C2: if `last_fed_date` equals today the selector exits without
mutation; otherwise a single invocation marks at most
`DAILY_VIDEO_LIMIT` further videos as fed; and running the selector a
second time the same day changes nothing more (it feeds 0 and leaves
`last_fed_date` as the first run left it). -/
theorem C2_daily_gate_and_cap (ts : Str → Int) (today : Str) (d : Document)
    (htoday : today ≠ []) :
    (d.last_fed_date = some today → get_next_video ts today d = d)
    ∧ fedCount (get_next_video ts today d) ≤ fedCount d + DAILY_VIDEO_LIMIT
    ∧ get_next_video ts today (get_next_video ts today d)
        = get_next_video ts today d := by
  refine ⟨?_, ?_, ?_⟩
  · intro hlast
    rw [get_next_video, hlast, if_pos (gateClosed_self htoday)]
  · cases hg : gateClosed d.last_fed_date today with
    | true => rw [get_next_video, if_pos hg]; omega
    | false =>
      rw [get_next_video, if_neg (by simp [hg])]
      by_cases hc : allUnfed d.playlists = []
      · simp only [hc]
        rw [if_pos trivial]
        omega
      · simp only [if_neg hc]
        have hspec := feedLoop_spec (sortUnfed ts (allUnfed d.playlists))
          d.playlists 0
        simp only [fedCount]
        omega
  · cases hg : gateClosed d.last_fed_date today with
    | true =>
      have h1 : get_next_video ts today d = d := by
        rw [get_next_video, if_pos hg]
      rw [h1, h1]
    | false =>
      by_cases hc : allUnfed d.playlists = []
      · have h1 : get_next_video ts today d = d := by
          rw [get_next_video, if_neg (by simp [hg]), hc, if_pos rfl]
        rw [h1, h1]
      · have h1 : get_next_video ts today d =
            ⟨(feedLoop (sortUnfed ts (allUnfed d.playlists)) d.playlists 0).1,
              some today⟩ := by
          rw [get_next_video, if_neg (by simp [hg])]
          simp only [if_neg hc]
        rw [h1, get_next_video, if_pos (gateClosed_self htoday)]

/-- C2 witness: with `last_fed_date = today` the selector is the identity;
with a fresh document of one unfed video the cap bound and the
same-day-idempotence hold at concrete inputs. -/
theorem C2_daily_gate_and_cap_witness :
    get_next_video (fun _ => 0) "2024-01-02".data
        ⟨[], some "2024-01-02".data⟩ = ⟨[], some "2024-01-02".data⟩
    ∧ fedCount (get_next_video (fun _ => 0) "2024-01-02".data
        ⟨[(("PL".data : Str), ⟨"purl".data,
            [⟨"u".data, "p".data, [], [], false, none, none, none⟩],
            "ad".data⟩)], none⟩)
      ≤ fedCount ⟨[(("PL".data : Str), ⟨"purl".data,
            [⟨"u".data, "p".data, [], [], false, none, none, none⟩],
            "ad".data⟩)], none⟩ + DAILY_VIDEO_LIMIT
    ∧ get_next_video (fun _ => 0) "2024-01-02".data
        (get_next_video (fun _ => 0) "2024-01-02".data
          ⟨[(("PL".data : Str), ⟨"purl".data,
              [⟨"u".data, "p".data, [], [], false, none, none, none⟩],
              "ad".data⟩)], none⟩)
      = get_next_video (fun _ => 0) "2024-01-02".data
          ⟨[(("PL".data : Str), ⟨"purl".data,
              [⟨"u".data, "p".data, [], [], false, none, none, none⟩],
              "ad".data⟩)], none⟩ :=
  ⟨(C2_daily_gate_and_cap (fun _ => 0) "2024-01-02".data
      ⟨[], some "2024-01-02".data⟩ (by decide)).1 rfl,
   (C2_daily_gate_and_cap (fun _ => 0) "2024-01-02".data _ (by decide)).2.1,
   (C2_daily_gate_and_cap (fun _ => 0) "2024-01-02".data _ (by decide)).2.2⟩

/-- C3: once past the gate, the selector leaves `last_fed_date` (and the
whole document) untouched when there are no candidates at all, and stamps
`last_fed_date = today` whenever at least one candidate exists —
unconditionally after the selection loop, whatever it fed. -/
theorem C3_last_fed_stamp (ts : Str → Int) (today : Str) (d : Document)
    (hgate : gateClosed d.last_fed_date today = false) :
    (allUnfed d.playlists = [] → get_next_video ts today d = d)
    ∧ (allUnfed d.playlists ≠ [] →
        (get_next_video ts today d).last_fed_date = some today) := by
  constructor
  · intro hc
    rw [get_next_video, if_neg (by simp [hgate]), hc, if_pos rfl]
  · intro hc
    rw [get_next_video, if_neg (by simp [hgate])]
    simp only [if_neg hc]

/-- C3 witness: a candidate-free document is untouched (no stamp); a
document with one unfed candidate gets `last_fed_date = today`. -/
theorem C3_last_fed_stamp_witness :
    get_next_video (fun _ => 0) "2024-01-02".data
        ⟨[], some "2024-01-01".data⟩ = ⟨[], some "2024-01-01".data⟩
    ∧ (get_next_video (fun _ => 0) "2024-01-02".data
        ⟨[(("PL".data : Str), ⟨"purl".data,
            [⟨"u".data, "p".data, [], [], false, none, none, none⟩],
            "ad".data⟩)], some "2024-01-01".data⟩).last_fed_date
      = some "2024-01-02".data :=
  ⟨(C3_last_fed_stamp (fun _ => 0) "2024-01-02".data
      ⟨[], some "2024-01-01".data⟩ (by decide)).1 rfl,
   (C3_last_fed_stamp (fun _ => 0) "2024-01-02".data _ (by decide)).2
      (by decide)⟩

/-! ### C8: the `fed` flag is monotonic across every operation -/

/-- Pointwise relation on video lists: same videos (by position and url),
with `fed` only ever going from `false` to `true`. -/
def fedLeVideos (vs ws : List VideoRecord) : Prop :=
  List.Forall₂ (fun v w => v.url = w.url ∧ (v.fed = true → w.fed = true)) vs ws

/-- Pointwise relation on the playlists dict: same keys, videos related by
`fedLeVideos`. -/
def fedLePls (ps qs : List (Str × PlaylistRecord)) : Prop :=
  List.Forall₂ (fun p q => p.1 = q.1 ∧ fedLeVideos p.2.videos q.2.videos) ps qs

theorem fedLeVideos_refl (vs : List VideoRecord) : fedLeVideos vs vs := by
  induction vs with
  | nil => exact List.Forall₂.nil
  | cons v vs ih => exact List.Forall₂.cons ⟨rfl, fun h => h⟩ ih

theorem fedLePls_refl (ps : List (Str × PlaylistRecord)) : fedLePls ps ps := by
  induction ps with
  | nil => exact List.Forall₂.nil
  | cons p ps ih => exact List.Forall₂.cons ⟨rfl, fedLeVideos_refl _⟩ ih

theorem fedLeVideos_trans {as bs cs : List VideoRecord}
    (h1 : fedLeVideos as bs) (h2 : fedLeVideos bs cs) : fedLeVideos as cs := by
  induction h1 generalizing cs with
  | nil => cases h2; exact List.Forall₂.nil
  | cons hab h1' ih =>
    cases h2 with
    | cons hbc h2' =>
      exact List.Forall₂.cons
        ⟨hab.1.trans hbc.1, fun h => hbc.2 (hab.2 h)⟩ (ih h2')

theorem fedLePls_trans {as bs cs : List (Str × PlaylistRecord)}
    (h1 : fedLePls as bs) (h2 : fedLePls bs cs) : fedLePls as cs := by
  induction h1 generalizing cs with
  | nil => cases h2; exact List.Forall₂.nil
  | cons hab h1' ih =>
    cases h2 with
    | cons hbc h2' =>
      exact List.Forall₂.cons
        ⟨hab.1.trans hbc.1, fedLeVideos_trans hab.2 hbc.2⟩ (ih h2')

theorem updateVideosFirst_fedLe (u : Str) (upd : VideoRecord → VideoRecord)
    (hupd : ∀ v, (upd v).url = v.url ∧ (v.fed = true → (upd v).fed = true))
    (vs : List VideoRecord) : fedLeVideos vs (updateVideosFirst u upd vs).1 := by
  induction vs with
  | nil => exact List.Forall₂.nil
  | cons v vs ih =>
    by_cases hv : v.url = u
    · rw [updateVideosFirst, if_pos hv]
      exact List.Forall₂.cons ⟨(hupd v).1.symm, (hupd v).2⟩ (fedLeVideos_refl vs)
    · rw [updateVideosFirst, if_neg hv]
      exact List.Forall₂.cons ⟨rfl, fun h => h⟩ ih

theorem feedVideosOne_fedLe (u : Str) (vs : List VideoRecord) :
    fedLeVideos vs (feedVideosOne u vs).1 := by
  induction vs with
  | nil => exact List.Forall₂.nil
  | cons v vs ih =>
    by_cases hv : v.url = u ∧ v.fed = false
    · rw [feedVideosOne_cons_pos hv]
      exact List.Forall₂.cons ⟨rfl, fun _ => rfl⟩ (fedLeVideos_refl vs)
    · rw [feedVideosOne_cons_neg hv]
      exact List.Forall₂.cons ⟨rfl, fun h => h⟩ ih

theorem updateDocFirst_fedLe {f : List VideoRecord → List VideoRecord × Bool}
    (hf : ∀ vs, fedLeVideos vs (f vs).1)
    (pls : List (Str × PlaylistRecord)) :
    fedLePls pls (updateDocFirst f pls).1 := by
  induction pls with
  | nil => exact List.Forall₂.nil
  | cons p rest ih =>
    obtain ⟨k, pl⟩ := p
    cases hp : (f pl.videos).2 with
    | true =>
      rw [updateDocFirst_cons_pos hp]
      exact List.Forall₂.cons ⟨rfl, hf pl.videos⟩ (fedLePls_refl rest)
    | false =>
      rw [updateDocFirst_cons_neg hp]
      exact List.Forall₂.cons ⟨rfl, fedLeVideos_refl _⟩ ih

theorem feedLoop_fedLe (cands : List VideoRecord)
    (pls : List (Str × PlaylistRecord)) (n : Nat) :
    fedLePls pls (feedLoop cands pls n).1 := by
  induction cands generalizing pls n with
  | nil => exact fedLePls_refl pls
  | cons v vs ih =>
    by_cases hn : DAILY_VIDEO_LIMIT ≤ n
    · rw [feedLoop_cons_stop hn]
      exact fedLePls_refl pls
    · rw [feedLoop_cons_step hn]
      exact fedLePls_trans
        (updateDocFirst_fedLe (feedVideosOne_fedLe v.url) pls)
        (ih (feedDocOne v.url pls).1 _)

theorem lookupLocal_isSome_of_mem {videos : List VideoRecord}
    {v : VideoRecord} (hv : v ∈ videos) :
    ∃ ex, lookupLocal videos v.url = some ex := by
  have hsome : (lookupLocal videos v.url).isSome := by
    unfold lookupLocal
    exact List.find?_isSome.2 ⟨v, by simpa using hv, by simp⟩
  exact Option.isSome_iff_exists.1 hsome

/-- C8: `fed` is monotonic.  For the in-place operations (the feed
selector, `watch`, `skip`, `analyze`, `auto_analyze`) the document's
playlists evolve pointwise with `fed` only ever set from `false` to
`true`; `add` never touches existing playlist records; and the sync merge
(given the documented invariant that urls are unique) carries a `fed =
true` flag over to the merged record with the same url. -/
theorem C8_fed_monotonic (ts : Str → Int)
    (today u summary rating ptsStr pid purl added : Str)
    (llm : Option LlmAnalysis) (remote : List RemoteVideo) (d : Document)
    (locals : List VideoRecord) :
    fedLePls d.playlists (get_next_video ts today d).playlists
    ∧ (∀ r, mark_video_watched u d = some r →
        fedLePls d.playlists r.1.playlists)
    ∧ (∀ r, skip_video u d = some r → fedLePls d.playlists r.1.playlists)
    ∧ (∀ r, analyze_video u summary rating ptsStr d = some r →
        fedLePls d.playlists r.1.playlists)
    ∧ (∀ r, auto_analyze_video_with_llm u llm d = some r →
        fedLePls d.playlists r.1.playlists)
    ∧ (∀ p ∈ d.playlists, p ∈ (add_playlist pid purl remote added d).playlists)
    ∧ ((locals.map VideoRecord.url).Nodup →
        ∀ v ∈ locals, v.fed = true →
          ∀ w ∈ mergeVideos locals remote, w.url = v.url → w.fed = true) := by
  have hdocCase : ∀ (X : List (Str × PlaylistRecord) × Bool)
      (hX : fedLePls d.playlists X.1) (r : Document × Bool),
      (if X.2 then ({ d with playlists := X.1 }, true) else (d, false)) = r →
      fedLePls d.playlists r.1.playlists := by
    intro X hX r hr
    cases hX2 : X.2 with
    | true => rw [hX2, if_pos rfl] at hr; rw [← hr]; exact hX
    | false => rw [hX2] at hr; rw [← hr]; exact fedLePls_refl _
  refine ⟨?_, ?_, ?_, ?_, ?_, ?_, ?_⟩
  · rw [get_next_video]
    by_cases hg : gateClosed d.last_fed_date today = true
    · rw [if_pos hg]; exact fedLePls_refl _
    · rw [if_neg hg]
      by_cases hc : allUnfed d.playlists = []
      · rw [if_pos hc]; exact fedLePls_refl _
      · rw [if_neg hc]
        exact feedLoop_fedLe _ d.playlists 0
  · intro r hr
    unfold mark_video_watched at hr
    cases hn : normalize_youtube_url u with
    | none => rw [hn] at hr; cases hr
    | some u' =>
      rw [hn, Option.map_some'] at hr
      exact hdocCase _
        (updateDocFirst_fedLe
          (updateVideosFirst_fedLe u' (fun v => { v with fed := true })
            (fun v => ⟨rfl, fun _ => rfl⟩))
          d.playlists)
        r (Option.some.inj hr)
  · intro r hr
    unfold skip_video at hr
    cases hn : normalize_youtube_url u with
    | none => rw [hn] at hr; cases hr
    | some u' =>
      rw [hn, Option.map_some'] at hr
      exact hdocCase _
        (updateDocFirst_fedLe
          (updateVideosFirst_fedLe u' (fun v => { v with fed := true })
            (fun v => ⟨rfl, fun _ => rfl⟩))
          d.playlists)
        r (Option.some.inj hr)
  · intro r hr
    unfold analyze_video at hr
    cases hn : normalize_youtube_url u with
    | none => rw [hn] at hr; cases hr
    | some u' =>
      rw [hn, Option.map_some'] at hr
      exact hdocCase _
        (updateDocFirst_fedLe
          (updateVideosFirst_fedLe u'
            (fun v =>
              { v with
                summary := some summary
                usefulness_rating := some rating
                actionable_points := some (parsePoints ptsStr) })
            (fun v => ⟨rfl, fun h => h⟩))
          d.playlists)
        r (Option.some.inj hr)
  · intro r hr
    unfold auto_analyze_video_with_llm at hr
    cases hn : normalize_youtube_url u with
    | none => rw [hn] at hr; cases hr
    | some u' =>
      rw [hn, Option.map_some'] at hr
      by_cases hv : hasVideo d.playlists u' = true
      · rw [if_pos hv] at hr
        by_cases hq : (getParam "v".data (urlparse u').query).isSome = true
        · rw [if_pos hq] at hr
          cases llm with
          | none =>
            injection hr with hr'
            rw [← hr']
            exact fedLePls_refl _
          | some a =>
            injection hr with hr'
            rw [← hr']
            exact updateDocFirst_fedLe
              (updateVideosFirst_fedLe u'
                (fun v =>
                  { v with
                    summary := some (a.summary.getD [])
                    usefulness_rating :=
                      some (a.usefulness_rating.getD "unknown".data)
                    actionable_points := some (a.actionable_points.getD []) })
                (fun v => ⟨rfl, fun h => h⟩))
              d.playlists
        · rw [if_neg hq] at hr
          injection hr with hr'
          rw [← hr']
          exact fedLePls_refl _
      · rw [if_neg hv] at hr
        injection hr with hr'
        rw [← hr']
        exact fedLePls_refl _
  · intro p hp
    unfold add_playlist
    by_cases h1 : ((d.playlists.find? fun q => q.1 == pid)).isSome = true
    · rw [if_pos h1]; exact hp
    · rw [if_neg h1]
      by_cases h2 : remote = []
      · rw [if_pos h2]; exact hp
      · rw [if_neg h2]
        exact List.mem_append_left _ hp
  · intro hnd v hv hfed w hw hwv
    simp only [mergeVideos, List.mem_map] at hw
    obtain ⟨r, hr, hwr⟩ := hw
    obtain ⟨ex, hex⟩ := lookupLocal_isSome_of_mem hv
    have hru : r.url = v.url := by rw [← hwv, ← hwr]; exact (mergeOne_url locals r).symm
    rw [← hwr]
    unfold mergeOne
    rw [hru, hex]
    obtain ⟨hexu, hexmem⟩ := lookupLocal_spec hex
    have hexv : ex = v :=
      List.inj_on_of_nodup_map hnd hexmem hv (by rw [hexu])
    simp [hexv, hfed]

/-- C8 witness: feeding via the selector, watching, and a sync merge at
concrete inputs — an already-fed record never loses its flag. -/
theorem C8_fed_monotonic_witness :
    fedLePls
      [(("PL".data : Str), ⟨"purl".data,
          [⟨"u".data, "p".data, [], [], true, none, none, none⟩], "ad".data⟩)]
      ((get_next_video (fun _ => 0) "2024-01-02".data
        ⟨[(("PL".data : Str), ⟨"purl".data,
            [⟨"u".data, "p".data, [], [], true, none, none, none⟩],
            "ad".data⟩)], none⟩).playlists)
    ∧ ∀ w ∈ mergeVideos
          [⟨"u".data, "p".data, [], [], true, none, none, none⟩]
          [⟨"u".data, "q".data, [], []⟩],
        w.url = "u".data → w.fed = true := by
  constructor
  · exact (C8_fed_monotonic (fun _ => 0) "2024-01-02".data [] [] [] [] [] [] []
      none [] ⟨[(("PL".data : Str), ⟨"purl".data,
          [⟨"u".data, "p".data, [], [], true, none, none, none⟩],
          "ad".data⟩)], none⟩ []).1
  · intro w hw hwu
    exact (C8_fed_monotonic (fun _ => 0) [] [] [] [] [] [] [] [] none
      [⟨"u".data, "q".data, [], []⟩] ⟨[], none⟩
      [⟨"u".data, "p".data, [], [], true, none, none, none⟩]).2.2.2.2.2.2
      (by decide) ⟨"u".data, "p".data, [], [], true, none, none, none⟩
      (by decide) rfl w hw hwu

end MindfulTube
